import Mathlib

/- Verification of the murmur repository: two Python command-line scripts that
   score and rank documentation files against a keyword query.

   Shallow embedding conventions: Python strings are lists of characters
   (`Str`); Python floats are ℚ (all score arithmetic stays on exact multiples
   of one half, so this is faithful); Python functions that can raise return
   `Except`; the yaml.safe_load library call is an oracle parameter producing
   well-typed front-matter mappings (string or list-of-string values, the only
   shapes the scripts read). -/

abbrev Str := List Char

/-- Python str.lower, modelled characterwise (ASCII case mapping). -/
def lowerStr (s : Str) : Str := s.map Char.toLower

/-- Helper of splitWS: accumulates the current token in reverse. -/
def splitWSGo : Str → Str → List Str
  | [], acc => if acc = [] then [] else [acc.reverse]
  | c :: rest, acc =>
    if c.isWhitespace then
      (if acc = [] then splitWSGo rest [] else acc.reverse :: splitWSGo rest [])
    else splitWSGo rest (c :: acc)

/-- Python s.split() with no separator: split on whitespace runs, no empty tokens. -/
def splitWS (s : Str) : List Str := splitWSGo s []

/-- Python s.split("\n"). -/
def splitNL : Str → List Str
  | [] => [[]]
  | c :: rest =>
    if c = '\n' then [] :: splitNL rest
    else
      match splitNL rest with
      | [] => [[c]]
      | l :: ls => (c :: l) :: ls

/-- Python "\n".join(lines). -/
def joinNL : List Str → Str
  | [] => []
  | [l] => l
  | l :: l' :: ls => l ++ '\n' :: joinNL (l' :: ls)

/-- Python " ".join(parts). -/
def joinSpace : List Str → Str
  | [] => []
  | [t] => t
  | t :: t' :: ts => t ++ ' ' :: joinSpace (t' :: ts)

/-- Python substring membership test: pat in s. -/
def pyIn (pat : Str) : Str → Bool
  | [] => pat.isEmpty
  | c :: rest => pat.isPrefixOf (c :: rest) || pyIn pat rest

/-- Scanner of countOcc: a positive skip counter jumps over the characters
    consumed by the most recent match, making the count non-overlapping. -/
def countOccA (pat : Str) : Str → Nat → Nat
  | [], _ => 0
  | c :: rest, 0 =>
    if pat.isPrefixOf (c :: rest) then 1 + countOccA pat rest (pat.length - 1)
    else countOccA pat rest 0
  | _ :: rest, k + 1 => countOccA pat rest k

/-- Python s.count(pat): non-overlapping occurrences, scanning left to right. -/
def countOcc (pat s : Str) : Nat :=
  if pat = [] then s.length + 1 else countOccA pat s 0

/-- Index of the first occurrence of pat in s (re.search on a literal pattern). -/
def findSub (pat : Str) : Str → Option Nat
  | [] => if pat.isPrefixOf [] then some 0 else none
  | c :: rest =>
    if pat.isPrefixOf (c :: rest) then some 0
    else (findSub pat rest).map (fun i => i + 1)

/-- Index of the first element satisfying p (a Python for loop with break). -/
def findIdxO (p : Str → Bool) : List Str → Option Nat
  | [] => none
  | l :: ls => if p l then some 0 else (findIdxO p ls).map (fun i => i + 1)

/-- Python l[:n] for an int n: a negative n counts from the end. -/
def pySliceTo (n : Int) (l : List α) : List α :=
  if 0 ≤ n then l.take n.toNat else l.take ((l.length : Int) + n).toNat

/-- Python s.strip(). -/
def pyStrip (s : Str) : Str :=
  ((s.dropWhile Char.isWhitespace).reverse.dropWhile Char.isWhitespace).reverse

/-- Scanner of pyTitle: uppercase a letter that follows a non-letter. -/
def pyTitleGo : Str → Bool → Str
  | [], _ => []
  | c :: rest, prevAlpha =>
    (if c.isAlpha then (if prevAlpha then c.toLower else c.toUpper) else c) ::
      pyTitleGo rest c.isAlpha

/-- Python s.title(). -/
def pyTitle (s : Str) : Str := pyTitleGo s false

/-- Insert r into a descending-sorted list, after all entries of key ≥ key r.
    Together with sortDescBy this realises the Python call
    results.sort(key=..., reverse=True), which is documented to be stable. -/
def insertDesc (key : α → ℚ) (r : α) : List α → List α
  | [] => [r]
  | x :: xs => if key x ≤ key r then r :: x :: xs else x :: insertDesc key r xs

/-- Stable descending sort by a rational key. -/
def sortDescBy (key : α → ℚ) : List α → List α
  | [] => []
  | x :: xs => insertDesc key x (sortDescBy key xs)

/-- The ranking step shared by both variants: sort by score descending
    (stable), then truncate with the slice results[:top_n]. -/
def rankBy (key : α → ℚ) (top_n : Int) (l : List α) : List α :=
  pySliceTo top_n (sortDescBy key l)

/-! Variant A: the references script (.agents/skills/.../search_patterns.py). -/

/-- Marker "##" of a markdown sub-heading. -/
def hhMark : Str := ['#', '#']

/-- Marker "# " of a markdown top heading. -/
def h1Mark : Str := ['#', ' ']

/-- Filename block of calculate_score (references variant, lines 32-38). -/
def scoreFilenameA (ql : Str) (terms : List Str) (fl : Str) : ℚ :=
  if pyIn ql fl then 10
  else terms.foldl (fun a t => if pyIn t fl then a + 4 else a) 0

/-- Exact-phrase block of calculate_score (lines 40-42). -/
def scorePhraseA (ql cl : Str) : ℚ := if pyIn ql cl then 8 else 0

/-- Per-term frequency block of calculate_score (lines 44-48). -/
def scoreFreqA (terms : List Str) (cl : Str) : ℚ :=
  terms.foldl (fun a t => a + ((min (countOcc t cl) 10 : Nat) : ℚ) * (1/2)) 0

/-- Header block of calculate_score (lines 50-59): loop over content lines. -/
def scoreHeadersA (ql : Str) (terms : List Str) (content : Str) : ℚ :=
  (splitNL content).foldl
    (fun a line =>
      if hhMark.isPrefixOf line then
        (if pyIn ql (lowerStr line) then a + 5
         else terms.foldl (fun b t => if pyIn t (lowerStr line) then b + 2 else b) a)
      else a)
    0

/-- calculate_score of the references variant (lines 23-61). -/
def calculate_scoreA (query content filename : Str) : ℚ :=
  scoreFilenameA (lowerStr query) (splitWS (lowerStr query)) (lowerStr filename)
    + scorePhraseA (lowerStr query) (lowerStr content)
    + scoreFreqA (splitWS (lowerStr query)) (lowerStr content)
    + scoreHeadersA (lowerStr query) (splitWS (lowerStr query)) content

/-- Fallback term loop of extract_relevant_section (lines 76-84): for each
    query term in order, scan all lines; the first term found anywhere wins. -/
def findTermIdx (lines : List Str) : List Str → Option Nat
  | [] => none
  | t :: ts =>
    match findIdxO (fun line => pyIn t (lowerStr line)) lines with
    | some i => some i
    | none => findTermIdx lines ts

/-- Best match line of extract_relevant_section: the first line containing the
    full lowercased query (lines 70-74), else the fallback term loop. -/
def bestIdx (content query : Str) : Option Nat :=
  match findIdxO (fun line => pyIn (lowerStr query) (lowerStr line)) (splitNL content) with
  | some i => some i
  | none => findTermIdx (splitNL content) (splitWS (lowerStr query))

/-- extract_relevant_section (references variant, lines 64-93): the window is
    the Python slice lines[max(0, i - context) : min(len(lines), i + context + 1)]
    joined with newlines. -/
def extract_relevant_section (content query : Str) (context_lines : Nat) : Str :=
  match bestIdx content query with
  | none => []
  | some i =>
    joinNL (((splitNL content).drop (i - context_lines)).take
      (min (splitNL content).length (i + context_lines + 1) - (i - context_lines)))

/-- First "# " heading of the content, stripped (lines 133-136). -/
def firstH1 : List Str → Option Str
  | [] => none
  | line :: rest =>
    if h1Mark.isPrefixOf line then some (pyStrip (line.drop 2)) else firstH1 rest

/-- Title of a references result (lines 131-136). -/
def titleOfA (stem content : Str) : Str :=
  match firstH1 (splitNL content) with
  | some t => t
  | none => pyTitle (stem.map (fun c => if c = '-' then ' ' else c))

/-- Ellipsis appended to long snippets. -/
def dots3 : Str := ['.', '.', '.']

/-- Snippet of a references result (lines 139 and 146). -/
def snippetOfA (content query : Str) : Str :=
  let s := extract_relevant_section content query 5
  if 300 < s.length then s.take 300 ++ dots3 else s

structure FileA where
  stem : Str
  name : Str
  path : Str
  content : Str
deriving DecidableEq

structure ResultA where
  title : Str
  file : Str
  path : Str
  score : ℚ
  snippet : Str
deriving DecidableEq

/-- Result accumulation loop of search_references (lines 113-147), applied to
    the successfully read files: keep exactly the documents of positive score. -/
def accumulateA (query : Str) (files : List FileA) : List ResultA :=
  files.filterMap (fun f =>
    let score := calculate_scoreA query f.content f.stem
    if 0 < score then
      some { title := titleOfA f.stem f.content, file := f.name, path := f.path,
             score := score, snippet := snippetOfA f.content query }
    else none)

inductive SearchErr where
  | valueError
  | fileNotFound
deriving DecidableEq

def EXIT_SUCCESS : Int := 0

def EXIT_FAILURE : Int := 1

/-- search_references (lines 96-156).  Files are given as read results; none
    stands for a file whose read raised, which the loop skips. -/
def search_referencesA (query : Str) (top_n : Int) (dirExists : Bool)
    (files : List (Option FileA)) : Except SearchErr (List ResultA) :=
  if top_n < 1 then Except.error SearchErr.valueError
  else if dirExists = false then Except.error SearchErr.fileNotFound
  else Except.ok (rankBy (fun r => r.score) top_n (accumulateA query (files.filterMap id)))

/-- main of the references variant (lines 159-218): exit code and printed
    results; both raises are caught and reported with EXIT_FAILURE. -/
def mainA (query : Str) (top_n : Int) (dirExists : Bool) (files : List (Option FileA)) :
    Int × List ResultA :=
  match search_referencesA query top_n dirExists files with
  | Except.error _ => (EXIT_FAILURE, [])
  | Except.ok rs => (EXIT_SUCCESS, rs)

/-! Variant B: the patterns script (skills/.../search_patterns.py). -/

inductive YVal where
  | s (v : Str)
  | l (v : List Str)
deriving DecidableEq

/-- A parsed YAML front-matter mapping.  The script only reads string and
    list-of-string values, so values are modelled by YVal. -/
abbrev FMap := List (Str × YVal)

def lookupFM : FMap → Str → Option YVal
  | [], _ => none
  | (k', v) :: rest, k => if k' = k then some v else lookupFM rest k

/-- Python frontmatter.get(key, dflt) read as a string field. -/
def getStrFM (fm : FMap) (k : Str) (dflt : Str) : Str :=
  match lookupFM fm k with
  | some (YVal.s v) => v
  | some (YVal.l _) => dflt
  | none => dflt

/-- Python frontmatter.get(key, []) read as a list field. -/
def getListFM (fm : FMap) (k : Str) : List Str :=
  match lookupFM fm k with
  | some (YVal.l v) => v
  | some (YVal.s _) => []
  | none => []

def kTitle : Str := ['t', 'i', 't', 'l', 'e']

def kTags : Str := ['t', 'a', 'g', 's']

def kSummary : Str := ['s', 'u', 'm', 'm', 'a', 'r', 'y']

def kSkillLevel : Str := ['s', 'k', 'i', 'l', 'l', 'L', 'e', 'v', 'e', 'l']

def strUntitled : Str := ['U', 'n', 't', 'i', 't', 'l', 'e', 'd']

def strNoSummary : Str :=
  ['N', 'o', ' ', 's', 'u', 'm', 'm', 'a', 'r', 'y', ' ',
   'a', 'v', 'a', 'i', 'l', 'a', 'b', 'l', 'e']

def strUnknown : Str := ['u', 'n', 'k', 'n', 'o', 'w', 'n']

/-- Result of the library call yaml.safe_load: error models a YAMLError,
    ok none a document that loads to None, ok (some m) a mapping. -/
abbrev YamlOracle := Str → Except Unit (Option FMap)

def openMarker : Str := ['-', '-', '-']

def fmMarker : Str := ['\n', '-', '-', '-', '\n']

/-- Python frontmatter = yaml.safe_load(s) or {}, with YAMLError caught. -/
def fmOf (yaml : YamlOracle) (s : Str) : FMap :=
  match yaml s with
  | Except.error _ => []
  | Except.ok none => []
  | Except.ok (some m) => m

/-- parse_frontmatter (patterns variant, lines 23-42): the closing marker is
    the first "newline, three hyphens, newline" after the first three
    characters; the body starts right after it (index i+3 of the content plus
    the five marker characters). -/
def parse_frontmatter (yaml : YamlOracle) (content : Str) : FMap × Str :=
  if openMarker.isPrefixOf content = false then ([], content)
  else
    match findSub fmMarker (content.drop 3) with
    | none => ([], content)
    | some i => (fmOf yaml ((content.drop 3).take i), content.drop (i + 8))

/-- One field block of calculate_score of the patterns variant: a full-query
    bonus, otherwise a per-term loop.  All four blocks of the source share this
    shape; only the weights differ. -/
def fieldBlockB (ql : Str) (terms : List Str) (field : Str) (phraseW termW : ℚ) : ℚ :=
  if pyIn ql field then phraseW
  else terms.foldl (fun a t => if pyIn t field then a + termW else a) 0

/-- calculate_score of the patterns variant (lines 45-89).  The tags block
    runs only under the truthiness test "if tags:". -/
def calculate_scoreB (query : Str) (frontmatter : FMap) (body : Str) : ℚ :=
  fieldBlockB (lowerStr query) (splitWS (lowerStr query))
      (lowerStr (getStrFM frontmatter kTitle [])) 10 3
    + (if (getListFM frontmatter kTags).isEmpty = false then
        fieldBlockB (lowerStr query) (splitWS (lowerStr query))
          (lowerStr (joinSpace (getListFM frontmatter kTags))) 8 2
      else 0)
    + fieldBlockB (lowerStr query) (splitWS (lowerStr query))
        (lowerStr (getStrFM frontmatter kSummary [])) 5 (3/2)
    + fieldBlockB (lowerStr query) (splitWS (lowerStr query)) (lowerStr body) 3 (1/2)

structure FileB where
  path : Str
  content : Str
deriving DecidableEq

structure ResultB where
  title : Str
  file_path : Str
  summary : Str
  skill_level : Str
  score : ℚ
deriving DecidableEq

/-- One iteration of the accumulation loop of search_patterns (lines 102-116):
    a document with an empty parsed front matter is skipped ("if not
    frontmatter: continue"), and only positive scores produce a result. -/
def resultOfB (yaml : YamlOracle) (query : Str) (f : FileB) : Option ResultB :=
  if (parse_frontmatter yaml f.content).1 = [] then none
  else
    if 0 < calculate_scoreB query (parse_frontmatter yaml f.content).1
        (parse_frontmatter yaml f.content).2 then
      some { title := getStrFM (parse_frontmatter yaml f.content).1 kTitle strUntitled,
             file_path := f.path,
             summary := getStrFM (parse_frontmatter yaml f.content).1 kSummary strNoSummary,
             skill_level := getStrFM (parse_frontmatter yaml f.content).1 kSkillLevel strUnknown,
             score := calculate_scoreB query (parse_frontmatter yaml f.content).1
               (parse_frontmatter yaml f.content).2 }
    else none

/-- Result accumulation loop of search_patterns (lines 96-116): unreadable
    files (none) are skipped, then resultOfB runs on each document. -/
def accumulateB (yaml : YamlOracle) (query : Str) (files : List (Option FileB)) :
    List ResultB :=
  files.filterMap (fun f? => f?.bind (resultOfB yaml query))

/-- search_patterns (lines 92-120). -/
def search_patternsB (yaml : YamlOracle) (query : Str) (top_n : Int)
    (files : List (Option FileB)) : List ResultB :=
  rankBy (fun r => r.score) top_n (accumulateB yaml query files)

/-- Whether a scanned file survives the accumulation loop of search_patterns. -/
def keepB (yaml : YamlOracle) (query : Str) (f? : Option FileB) : Bool :=
  (f?.bind (resultOfB yaml query)).isSome

/-- main of the patterns variant (lines 123-158): exit code and results.  It
    performs no validation of top_n; a missing directory exits 1; otherwise the
    exit code is 0 whether or not any result was produced. -/
def mainB (yaml : YamlOracle) (query : Str) (top_n : Int) (dirExists : Bool)
    (files : List (Option FileB)) : Int × List ResultB :=
  if dirExists = false then (1, [])
  else (0, search_patternsB yaml query top_n files)

/-! Specification-side definitions: these follow the wording of the claims
    (and of spec.md), to be compared with the definitions above that were
    translated from the source. -/

/-- Variant A score as claim C1 words it: a filename part (10 for a full-query
    match, else 4 per matching term), 8 for a phrase match in the body, half a
    point per capped per-term occurrence, and a per-header-line part. -/
def scoreSpecA (query content filename : Str) : ℚ :=
  (if pyIn (lowerStr query) (lowerStr filename) then (10 : ℚ)
   else 4 * ((splitWS (lowerStr query)).countP (fun t => pyIn t (lowerStr filename)) : ℚ))
    + (if pyIn (lowerStr query) (lowerStr content) then (8 : ℚ) else 0)
    + ((splitWS (lowerStr query)).map
        (fun t => ((min (countOcc t (lowerStr content)) 10 : Nat) : ℚ) * (1/2))).sum
    + (((splitNL content).filter (fun line => hhMark.isPrefixOf line)).map
        (fun line =>
          if pyIn (lowerStr query) (lowerStr line) then (5 : ℚ)
          else 2 * ((splitWS (lowerStr query)).countP
              (fun t => pyIn t (lowerStr line)) : ℚ))).sum

/-- One field of the variant B score as claim C2 words it: a full-query bonus,
    otherwise a per-matching-term bonus. -/
def scoreSpecFieldB (ql : Str) (terms : List Str) (field : Str) (phraseW termW : ℚ) : ℚ :=
  if pyIn ql field then phraseW
  else termW * (terms.countP (fun t => pyIn t field) : ℚ)

/-- Variant B score as claim C2 words it: four fields with weights 10/3, 8/2,
    5/1.5 and 3/0.5, the tags list joined into one space-separated lowercased
    string, with no emptiness guard on the tags field. -/
def scoreSpecB (query : Str) (frontmatter : FMap) (body : Str) : ℚ :=
  scoreSpecFieldB (lowerStr query) (splitWS (lowerStr query))
      (lowerStr (getStrFM frontmatter kTitle [])) 10 3
    + scoreSpecFieldB (lowerStr query) (splitWS (lowerStr query))
        (lowerStr (joinSpace (getListFM frontmatter kTags))) 8 2
    + scoreSpecFieldB (lowerStr query) (splitWS (lowerStr query))
        (lowerStr (getStrFM frontmatter kSummary [])) 5 (3/2)
    + scoreSpecFieldB (lowerStr query) (splitWS (lowerStr query)) (lowerStr body) 3 (1/2)

/-- Variant B score as amended claim C2 words it: as scoreSpecB, except that
    an empty tags list contributes nothing (the code guard "if tags:"). -/
def scoreSpecBGuarded (query : Str) (frontmatter : FMap) (body : Str) : ℚ :=
  scoreSpecFieldB (lowerStr query) (splitWS (lowerStr query))
      (lowerStr (getStrFM frontmatter kTitle [])) 10 3
    + (if (getListFM frontmatter kTags).isEmpty = false then
        scoreSpecFieldB (lowerStr query) (splitWS (lowerStr query))
          (lowerStr (joinSpace (getListFM frontmatter kTags))) 8 2
      else 0)
    + scoreSpecFieldB (lowerStr query) (splitWS (lowerStr query))
        (lowerStr (getStrFM frontmatter kSummary [])) 5 (3/2)
    + scoreSpecFieldB (lowerStr query) (splitWS (lowerStr query)) (lowerStr body) 3 (1/2)

/-- Snippet extraction as claim C6 words it: match line is the first line
    containing the full lowercased query; else the first term (in query order)
    that matches anywhere wins, with the earliest line index for that term;
    else empty.  The window runs from max(0, i - 5) to min(lastLineIndex, i + 5)
    inclusive. -/
def extractSpecSection (content query : Str) : Str :=
  match (match findIdxO (fun line => pyIn (lowerStr query) (lowerStr line)) (splitNL content) with
         | some i => some i
         | none =>
           match (splitWS (lowerStr query)).find?
               (fun t => (splitNL content).any (fun line => pyIn t (lowerStr line))) with
           | some t => findIdxO (fun line => pyIn t (lowerStr line)) (splitNL content)
           | none => none) with
  | none => []
  | some i =>
    joinNL (((splitNL content).drop (i - 5)).take
      (min ((splitNL content).length - 1) (i + 5) + 1 - (i - 5)))

/-! Concrete instances used by witnesses and counterexamples. -/

/-- Oracle whose every parse yields the mapping with title "a". -/
def yamlTitleA : YamlOracle := fun _ => Except.ok (some [(kTitle, YVal.s ['a'])])

/-- Oracle whose every parse raises a YAMLError. -/
def yamlFails : YamlOracle := fun _ => Except.error ()

/-- A patterns file whose content is "---\nt\n---\na". -/
def fileBdoc : FileB := ⟨['p'], ['-', '-', '-', '\n', 't', '\n', '-', '-', '-', '\n', 'a']⟩

/-- A patterns file whose content is the single character "a" (no front matter). -/
def fileBplain : FileB := ⟨['p'], ['a']⟩

/-- A references file of stem, name, path and content all "a". -/
def fileAex : FileA := ⟨['a'], ['a'], ['a'], ['a']⟩

/-- The text "---\nx\n---\nbody\n---": an interior closing marker followed by a
    final line of three hyphens with no trailing newline. -/
def textC10 : Str :=
  ['-', '-', '-', '\n', 'x', '\n', '-', '-', '-', '\n',
   'b', 'o', 'd', 'y', '\n', '-', '-', '-']

/-- The text "---\na\n---": an opening marker whose only candidate closing
    marker is the final line, which has no trailing newline. -/
def textUnclosed : Str := ['-', '-', '-', '\n', 'a', '\n', '-', '-', '-']

/-- The text "---\na\n---\nbody": a well-formed front-matter block. -/
def textDoc : Str :=
  ['-', '-', '-', '\n', 'a', '\n', '-', '-', '-', '\n', 'b', 'o', 'd', 'y']

/-! Helper lemmas. -/

theorem pyIn_nil (s : Str) : pyIn [] s = true := by
  cases s with
  | nil => rfl
  | cons c rest => rfl

theorem foldl_if_add (p : α → Bool) (c : ℚ) (l : List α) (a : ℚ) :
    l.foldl (fun b t => if p t then b + c else b) a = a + c * (l.countP p : ℚ) := by
  induction l generalizing a with
  | nil => simp
  | cons x xs ih =>
    rw [List.foldl_cons, List.countP_cons]
    by_cases h : p x = true
    · rw [if_pos h, ih, if_pos h]
      push_cast
      ring
    · rw [if_neg h, ih, if_neg h]
      push_cast
      ring

theorem foldl_add_map (f : α → ℚ) (l : List α) (a : ℚ) :
    l.foldl (fun b t => b + f t) a = a + (l.map f).sum := by
  induction l generalizing a with
  | nil => simp
  | cons x xs ih =>
    rw [List.foldl_cons, ih, List.map_cons, List.sum_cons]
    ring

theorem countP_ext (p q : α → Bool) (l : List α) (h : ∀ a ∈ l, p a = q a) :
    l.countP p = l.countP q := by
  induction l with
  | nil => rfl
  | cons x xs ih =>
    rw [List.countP_cons, List.countP_cons, h x (by simp),
      ih (fun a ha => h a (by simp [ha]))]

theorem scoreHeadersA_foldl (ql : Str) (terms : List Str) (lines : List Str) (a : ℚ) :
    lines.foldl
        (fun a line =>
          if hhMark.isPrefixOf line then
            (if pyIn ql (lowerStr line) then a + 5
             else terms.foldl (fun b t => if pyIn t (lowerStr line) then b + 2 else b) a)
          else a) a
      = a + ((lines.filter (fun line => hhMark.isPrefixOf line)).map
          (fun line =>
            if pyIn ql (lowerStr line) then (5 : ℚ)
            else 2 * (terms.countP (fun t => pyIn t (lowerStr line)) : ℚ))).sum := by
  induction lines generalizing a with
  | nil => simp
  | cons line ls ih =>
    rw [List.foldl_cons, List.filter_cons]
    by_cases hh : hhMark.isPrefixOf line = true
    · rw [if_pos hh, if_pos hh, List.map_cons, List.sum_cons]
      by_cases hq : pyIn ql (lowerStr line) = true
      · rw [if_pos hq, if_pos hq, ih]
        ring
      · rw [if_neg hq, if_neg hq, foldl_if_add, ih]
        ring
    · rw [if_neg hh, if_neg hh, ih]

theorem scoreHeadersA_eq (ql : Str) (terms : List Str) (content : Str) :
    scoreHeadersA ql terms content
      = (((splitNL content).filter (fun line => hhMark.isPrefixOf line)).map
          (fun line =>
            if pyIn ql (lowerStr line) then (5 : ℚ)
            else 2 * (terms.countP (fun t => pyIn t (lowerStr line)) : ℚ))).sum := by
  rw [scoreHeadersA, scoreHeadersA_foldl, zero_add]

theorem scoreHeadersA_nonneg (ql : Str) (terms : List Str) (content : Str) :
    0 ≤ scoreHeadersA ql terms content := by
  rw [scoreHeadersA_eq]
  apply List.sum_nonneg
  intro x hx
  rw [List.mem_map] at hx
  obtain ⟨line, _, hline⟩ := hx
  by_cases hq : pyIn ql (lowerStr line) = true
  · rw [if_pos hq] at hline
    rw [← hline]; norm_num
  · rw [if_neg hq] at hline
    rw [← hline]
    positivity

theorem mem_insertDesc (key : α → ℚ) (r x : α) (l : List α) :
    x ∈ insertDesc key r l ↔ x = r ∨ x ∈ l := by
  induction l with
  | nil => simp [insertDesc]
  | cons y ys ih =>
    rw [insertDesc]
    by_cases hc : key y ≤ key r
    · rw [if_pos hc]
      simp
    · rw [if_neg hc]
      simp only [List.mem_cons, ih]
      tauto

theorem insertDesc_pairwise (key : α → ℚ) (r : α) (l : List α)
    (h : l.Pairwise (fun a b => key b ≤ key a)) :
    (insertDesc key r l).Pairwise (fun a b => key b ≤ key a) := by
  induction l with
  | nil => simp [insertDesc]
  | cons x xs ih =>
    rw [insertDesc]
    rw [List.pairwise_cons] at h
    by_cases hc : key x ≤ key r
    · rw [if_pos hc, List.pairwise_cons]
      refine ⟨?_, List.pairwise_cons.mpr h⟩
      intro b hb
      rcases List.mem_cons.mp hb with hb | hb
      · rw [hb]; exact hc
      · exact le_trans (h.1 b hb) hc
    · rw [if_neg hc, List.pairwise_cons]
      refine ⟨?_, ih h.2⟩
      intro b hb
      rcases (mem_insertDesc key r b xs).mp hb with hb | hb
      · rw [hb]; exact le_of_not_le hc
      · exact h.1 b hb

theorem sortDescBy_pairwise (key : α → ℚ) (l : List α) :
    (sortDescBy key l).Pairwise (fun a b => key b ≤ key a) := by
  induction l with
  | nil => exact List.Pairwise.nil
  | cons x xs ih => exact insertDesc_pairwise key x (sortDescBy key xs) ih

theorem length_insertDesc (key : α → ℚ) (r : α) (l : List α) :
    (insertDesc key r l).length = l.length + 1 := by
  induction l with
  | nil => rfl
  | cons y ys ih =>
    rw [insertDesc]
    by_cases hc : key y ≤ key r
    · rw [if_pos hc]; rfl
    · rw [if_neg hc, List.length_cons, ih, List.length_cons]

theorem length_sortDescBy (key : α → ℚ) (l : List α) :
    (sortDescBy key l).length = l.length := by
  induction l with
  | nil => rfl
  | cons x xs ih =>
    rw [sortDescBy, length_insertDesc, ih, List.length_cons]

theorem filter_insertDesc (key : α → ℚ) (s : ℚ) (r : α) (l : List α) :
    (insertDesc key r l).filter (fun x => decide (key x = s))
      = (r :: l).filter (fun x => decide (key x = s)) := by
  induction l with
  | nil => rfl
  | cons y ys ih =>
    rw [insertDesc]
    by_cases hc : key y ≤ key r
    · rw [if_pos hc]
    · rw [if_neg hc]
      by_cases hy : key y = s
      · by_cases hr : key r = s
        · exact absurd (le_of_eq (hy.trans hr.symm)) hc
        · rw [List.filter_cons, ih]
          simp [List.filter_cons, hr, hy]
      · by_cases hr : key r = s
        · rw [List.filter_cons, ih]
          simp [List.filter_cons, hr, hy]
        · rw [List.filter_cons, ih]
          simp [List.filter_cons, hr, hy]

theorem filter_sortDescBy (key : α → ℚ) (s : ℚ) (l : List α) :
    (sortDescBy key l).filter (fun x => decide (key x = s))
      = l.filter (fun x => decide (key x = s)) := by
  induction l with
  | nil => rfl
  | cons x xs ih =>
    rw [sortDescBy, filter_insertDesc]
    simp only [List.filter_cons, ih]

theorem filter_take_prefix (p : α → Bool) (l : List α) (n : Nat) :
    (l.take n).filter p <+: l.filter p := by
  induction l generalizing n with
  | nil => simp
  | cons x xs ih =>
    cases n with
    | zero => simp
    | succ m =>
      rw [List.take_succ_cons, List.filter_cons, List.filter_cons]
      by_cases h : p x = true
      · rw [if_pos h, if_pos h]
        obtain ⟨t, ht⟩ := ih m
        exact ⟨t, by rw [List.cons_append, ht]⟩
      · rw [if_neg h, if_neg h]
        exact ih m

theorem rankBy_pairwise (key : α → ℚ) (n : Int) (l : List α) :
    (rankBy key n l).Pairwise (fun a b => key b ≤ key a) := by
  rw [rankBy, pySliceTo]
  by_cases h : (0 : Int) ≤ n
  · rw [if_pos h]
    exact (sortDescBy_pairwise key l).sublist (List.take_sublist _ _)
  · rw [if_neg h]
    exact (sortDescBy_pairwise key l).sublist (List.take_sublist _ _)

theorem rankBy_filter_prefix (key : α → ℚ) (s : ℚ) (n : Int) (l : List α) :
    (rankBy key n l).filter (fun x => decide (key x = s))
      <+: l.filter (fun x => decide (key x = s)) := by
  rw [rankBy, pySliceTo]
  by_cases h : (0 : Int) ≤ n
  · rw [if_pos h]
    have h1 := filter_take_prefix (fun x => decide (key x = s)) (sortDescBy key l) n.toNat
    rwa [filter_sortDescBy] at h1
  · rw [if_neg h, length_sortDescBy]
    have h1 := filter_take_prefix (fun x => decide (key x = s)) (sortDescBy key l)
      ((l.length : Int) + n).toNat
    rwa [filter_sortDescBy] at h1

theorem length_rankBy (key : α → ℚ) (n : Int) (l : List α) (hn : 0 ≤ n) :
    (rankBy key n l).length = min n.toNat l.length := by
  rw [rankBy, pySliceTo, if_pos hn, List.length_take, length_sortDescBy]

theorem length_filterMap_countP (g : α → Option β) (l : List α) :
    (l.filterMap g).length = l.countP (fun a => (g a).isSome) := by
  induction l with
  | nil => rfl
  | cons x xs ih =>
    rw [List.filterMap_cons, List.countP_cons]
    cases hg : g x with
    | none => simp [hg, ih]
    | some b => simp [hg, ih]

theorem findSub_some_isPrefixOf (pat s : Str) (i : Nat) (h : findSub pat s = some i) :
    pat.isPrefixOf (s.drop i) = true := by
  induction s generalizing i with
  | nil =>
    rw [findSub] at h
    split at h
    · cases h
      simpa using (by assumption : pat.isPrefixOf [] = true)
    · cases h
  | cons c rest ih =>
    rw [findSub] at h
    split at h
    · cases h
      simpa using (by assumption : pat.isPrefixOf (c :: rest) = true)
    · rw [Option.map_eq_some'] at h
      obtain ⟨j, hj, hji⟩ := h
      rw [← hji, List.drop_succ_cons]
      exact ih j hj

theorem findSub_some_min (pat s : Str) (i j : Nat) (h : findSub pat s = some i) (hj : j < i) :
    pat.isPrefixOf (s.drop j) = false := by
  induction s generalizing i j with
  | nil =>
    rw [findSub] at h
    split at h
    · cases h
      omega
    · cases h
  | cons c rest ih =>
    rw [findSub] at h
    split at h
    · cases h
      omega
    · rw [Option.map_eq_some'] at h
      obtain ⟨j', hj', hji⟩ := h
      cases j with
      | zero =>
        have hnp : ¬ pat.isPrefixOf (c :: rest) = true := by assumption
        rw [List.drop_zero]
        simp only [Bool.not_eq_true] at hnp
        exact hnp
      | succ k =>
        rw [List.drop_succ_cons]
        exact ih j' k hj' (by omega)

theorem infix_of_findSub_some (pat s : Str) (i : Nat) (h : findSub pat s = some i) :
    pat <:+: s := by
  have hp := findSub_some_isPrefixOf pat s i h
  rw [List.isPrefixOf_iff_prefix] at hp
  obtain ⟨t, ht⟩ := hp
  refine ⟨s.take i, t, ?_⟩
  rw [List.append_assoc, ht, List.take_append_drop]

theorem findSub_eq_none_of_not_infix (pat s : Str) (h : ¬ pat <:+: s) :
    findSub pat s = none := by
  cases hf : findSub pat s with
  | none => rfl
  | some i => exact absurd (infix_of_findSub_some pat s i hf) h

theorem findIdxO_eq_none (p : Str → Bool) (ls : List Str) (h : findIdxO p ls = none) :
    ∀ l ∈ ls, p l = false := by
  induction ls with
  | nil => intro l hl; cases hl
  | cons x xs ih =>
    rw [findIdxO] at h
    split at h
    · cases h
    · intro l hl
      rcases List.mem_cons.mp hl with hl | hl
      · rw [hl]
        simpa using (by assumption : ¬ p x = true)
      · exact ih (by simpa using h) l hl

theorem findIdxO_isSome_any (p : Str → Bool) (ls : List Str) :
    (findIdxO p ls).isSome = ls.any p := by
  induction ls with
  | nil => rfl
  | cons x xs ih =>
    rw [findIdxO, List.any_cons]
    by_cases h : p x = true
    · rw [if_pos h, h]
      rfl
    · rw [if_neg h]
      rw [(by simpa using h : p x = false)]
      rw [Bool.false_or, ← ih]
      cases findIdxO p xs <;> rfl

theorem findIdxO_lt_length (p : Str → Bool) (ls : List Str) (i : Nat)
    (h : findIdxO p ls = some i) : i < ls.length := by
  induction ls generalizing i with
  | nil => cases h
  | cons x xs ih =>
    rw [findIdxO] at h
    split at h
    · cases h
      simp
    · rw [Option.map_eq_some'] at h
      obtain ⟨j, hj, hji⟩ := h
      rw [← hji, List.length_cons]
      exact Nat.succ_lt_succ (ih j hj)

theorem findTermIdx_eq_find? (lines : List Str) (ts : List Str) :
    findTermIdx lines ts
      = match ts.find? (fun t => lines.any (fun line => pyIn t (lowerStr line))) with
        | some t => findIdxO (fun line => pyIn t (lowerStr line)) lines
        | none => none := by
  induction ts with
  | nil => rfl
  | cons t ts ih =>
    rw [findTermIdx, List.find?_cons]
    cases hf : findIdxO (fun line => pyIn t (lowerStr line)) lines with
    | some i =>
      have hs : lines.any (fun line => pyIn t (lowerStr line)) = true := by
        rw [← findIdxO_isSome_any, hf]
        rfl
      rw [hs]
      exact hf.symm
    | none =>
      have hs : lines.any (fun line => pyIn t (lowerStr line)) = false := by
        rw [← findIdxO_isSome_any, hf]
        rfl
      rw [hs]
      exact ih

theorem findTermIdx_lt_length (lines : List Str) (ts : List Str) (i : Nat)
    (h : findTermIdx lines ts = some i) : i < lines.length := by
  induction ts with
  | nil => cases h
  | cons t ts ih =>
    rw [findTermIdx] at h
    rcases hf : findIdxO (fun line => pyIn t (lowerStr line)) lines with _ | j
    · rw [hf] at h
      exact ih h
    · rw [hf] at h
      cases h
      exact findIdxO_lt_length _ _ _ hf

theorem fieldBlockB_eq_spec (ql : Str) (terms : List Str) (field : Str) (phraseW termW : ℚ) :
    fieldBlockB ql terms field phraseW termW = scoreSpecFieldB ql terms field phraseW termW := by
  rw [fieldBlockB, scoreSpecFieldB, foldl_if_add]
  simp only [zero_add]

theorem fieldBlockB_nil (terms : List Str) (field : Str) (phraseW termW : ℚ) :
    fieldBlockB [] terms field phraseW termW = phraseW := by
  rw [fieldBlockB, if_pos (pyIn_nil field)]

theorem length_accumulateA (query : Str) (files : List FileA) :
    (accumulateA query files).length
      = files.countP (fun f => decide (0 < calculate_scoreA query f.content f.stem)) := by
  rw [accumulateA, length_filterMap_countP]
  apply countP_ext
  intro f _
  by_cases h : 0 < calculate_scoreA query f.content f.stem
  · simp [h]
  · simp [h]

theorem length_accumulateB (yaml : YamlOracle) (query : Str) (files : List (Option FileB)) :
    (accumulateB yaml query files).length = files.countP (keepB yaml query) := by
  rw [accumulateB, length_filterMap_countP]
  apply countP_ext
  intro f? _
  rfl

/-! Claim theorems. -/

/-- Claim C1: for every query and document, calculate_score of the references
    variant returns exactly the sum of the filename part (10.0 for a full-query
    substring match of the lowercased filename, else 4.0 per query term that is
    a substring of it), 8.0 for a full-query substring match in the lowercased
    body, 0.5 times the per-term occurrence count in the lowercased body capped
    at 10 summed over the query terms, and, for every body line starting with
    "##", 5.0 for a full-query match in that lowercased line and otherwise 2.0
    per query term present in it. -/
theorem claimC1_calculate_scoreA_eq_spec (query content filename : Str) :
    calculate_scoreA query content filename = scoreSpecA query content filename := by
  rw [calculate_scoreA, scoreSpecA, scoreFilenameA, scoreFreqA, scorePhraseA,
    scoreHeadersA_eq, foldl_if_add, foldl_add_map]
  simp only [zero_add]

/-- Claim C2, counterexample: at the empty query and a front matter whose tags
    list is empty, the code (which guards the tags block behind the truthiness
    test "if tags:") yields 18, while the sum described by the claim yields 26,
    because the empty query is a substring of the empty joined tags string. -/
theorem claimC2_counterexample :
    calculate_scoreB [] [] [] ≠ scoreSpecB [] [] [] := by
  have h1 : calculate_scoreB [] [] [] = (10 : ℚ) + 0 + 5 + 3 := rfl
  have h2 : scoreSpecB [] [] [] = (10 : ℚ) + 8 + 5 + 3 := rfl
  rw [h1, h2]
  norm_num

/-- Claim C2 as amended: calculate_score of the patterns variant equals the
    four-field weighted sum of the claim, except that the tags field
    contributes nothing when the tags list is empty. -/
theorem claimC2_amended_calculate_scoreB_eq_guarded_spec (query : Str) (frontmatter : FMap)
    (body : Str) :
    calculate_scoreB query frontmatter body = scoreSpecBGuarded query frontmatter body := by
  rw [calculate_scoreB, scoreSpecBGuarded]
  simp only [fieldBlockB_eq_spec]

/-- Claim C3, counterexample: scoring the empty document against the empty
    query returns 18, not 0, in both variants (the empty string is a substring
    of every string, so the full-query bonuses all fire). -/
theorem claimC3_counterexample :
    calculate_scoreA [] [] [] = 18 ∧ calculate_scoreB [] [] [] = 18
      ∧ calculate_scoreA [] [] [] ≠ 0 ∧ calculate_scoreB [] [] [] ≠ 0 := by
  have h1 : calculate_scoreA [] [] [] = (10 : ℚ) + 8 + 0 + 0 := rfl
  have h2 : calculate_scoreB [] [] [] = (10 : ℚ) + 0 + 5 + 3 := rfl
  refine ⟨by rw [h1]; norm_num, by rw [h2]; norm_num, by rw [h1]; norm_num, by rw [h2]; norm_num⟩

/-- Claim C3 as amended: scoring any document against the empty query returns
    at least 18.0 (so never 0) in both variants: the filename/title, phrase,
    summary and body full-query bonuses fire trivially. -/
theorem claimC3_amended_empty_query_scores_at_least_18 (content filename : Str)
    (frontmatter : FMap) (body : Str) :
    18 ≤ calculate_scoreA [] content filename ∧ 18 ≤ calculate_scoreB [] frontmatter body := by
  constructor
  · rw [calculate_scoreA, show lowerStr ([] : Str) = [] from rfl,
      show splitWS ([] : Str) = [] from rfl, scoreFilenameA, scorePhraseA, scoreFreqA,
      if_pos (pyIn_nil (lowerStr filename)), if_pos (pyIn_nil (lowerStr content)),
      List.foldl_nil]
    have h := scoreHeadersA_nonneg [] [] content
    linarith
  · rw [calculate_scoreB, show lowerStr ([] : Str) = [] from rfl,
      show splitWS ([] : Str) = [] from rfl]
    simp only [fieldBlockB_nil]
    by_cases h : (getListFM frontmatter kTags).isEmpty = false
    · rw [if_pos h]
      norm_num
    · rw [if_neg h]
      norm_num

/-- Claim C4: for every list of accumulated results and every positive topN,
    the ranked output is sorted by descending score, equal scores keep their
    original discovery order (the equal-score entries of the output are a
    prefix of the equal-score entries of the accumulated list), and the output
    length is min(topN, number of documents with positive score); this holds
    in both variants. -/
theorem claimC4_rank_sorted_stable_truncated (query : Str) (files : List FileA)
    (yaml : YamlOracle) (filesB : List (Option FileB)) (n : Int) (s : ℚ) (hn : 1 ≤ n) :
    (rankBy (fun r => r.score) n (accumulateA query files)).Pairwise
        (fun a b => b.score ≤ a.score)
      ∧ List.IsPrefix
          ((rankBy (fun r => r.score) n (accumulateA query files)).filter
            (fun r => decide (r.score = s)))
          ((accumulateA query files).filter (fun r => decide (r.score = s)))
      ∧ (rankBy (fun r => r.score) n (accumulateA query files)).length
          = min n.toNat
              (files.countP (fun f => decide (0 < calculate_scoreA query f.content f.stem)))
      ∧ (search_patternsB yaml query n filesB).Pairwise (fun a b => b.score ≤ a.score)
      ∧ List.IsPrefix
          ((search_patternsB yaml query n filesB).filter (fun r => decide (r.score = s)))
          ((accumulateB yaml query filesB).filter (fun r => decide (r.score = s)))
      ∧ (search_patternsB yaml query n filesB).length
          = min n.toNat (filesB.countP (keepB yaml query)) := by
  have hn0 : (0 : Int) ≤ n := by omega
  refine ⟨rankBy_pairwise _ n _, rankBy_filter_prefix _ s n _, ?_, ?_, ?_, ?_⟩
  · rw [length_rankBy _ n _ hn0, length_accumulateA]
  · rw [search_patternsB]
    exact rankBy_pairwise _ n _
  · rw [search_patternsB]
    exact rankBy_filter_prefix _ s n _
  · rw [search_patternsB, length_rankBy _ n _ hn0, length_accumulateB]

/-- Claim C4, witness: the ranking contract instantiated at one query, one
    matching references file, one matching patterns file and topN = 1. -/
theorem claimC4_witness :
    (rankBy (fun r => r.score) 1 (accumulateA ['a'] [fileAex])).Pairwise
        (fun a b => b.score ≤ a.score)
      ∧ List.IsPrefix
          ((rankBy (fun r => r.score) 1 (accumulateA ['a'] [fileAex])).filter
            (fun r => decide (r.score = 37/2)))
          ((accumulateA ['a'] [fileAex]).filter (fun r => decide (r.score = 37/2)))
      ∧ (rankBy (fun r => r.score) 1 (accumulateA ['a'] [fileAex])).length
          = min (1 : Int).toNat
              ([fileAex].countP (fun f => decide (0 < calculate_scoreA ['a'] f.content f.stem)))
      ∧ (search_patternsB yamlTitleA ['a'] 1 [some fileBdoc]).Pairwise
          (fun a b => b.score ≤ a.score)
      ∧ List.IsPrefix
          ((search_patternsB yamlTitleA ['a'] 1 [some fileBdoc]).filter
            (fun r => decide (r.score = 37/2)))
          ((accumulateB yamlTitleA ['a'] [some fileBdoc]).filter
            (fun r => decide (r.score = 37/2)))
      ∧ (search_patternsB yamlTitleA ['a'] 1 [some fileBdoc]).length
          = min (1 : Int).toNat ([some fileBdoc].countP (keepB yamlTitleA ['a'])) :=
  claimC4_rank_sorted_stable_truncated ['a'] [fileAex] yamlTitleA [some fileBdoc] 1 (37/2)
    (by decide)

/-- Claim C5: parse_frontmatter returns the empty mapping and the full text
    when the text does not begin with "---", or when no closing marker
    "\n---\n" occurs after the first three characters; when the closing marker
    is first found at index i of the text minus its first three characters,
    the returned body is everything strictly after the closing marker line
    (the content from index i+8 on), the five characters at content index i+3
    are exactly the marker (and no earlier candidate position carries it), and
    a failing yaml parse still yields the empty mapping with that same body
    split.  The Lean function is total, so the parse never raises. -/
theorem claimC5_parse_frontmatter_contract (yaml : YamlOracle) (content : Str) (i j : Nat) :
    (openMarker.isPrefixOf content = false → parse_frontmatter yaml content = ([], content))
      ∧ (findSub fmMarker (content.drop 3) = none →
          parse_frontmatter yaml content = ([], content))
      ∧ (openMarker.isPrefixOf content = true →
          findSub fmMarker (content.drop 3) = some i →
          parse_frontmatter yaml content
              = (fmOf yaml ((content.drop 3).take i), content.drop (i + 8))
            ∧ (yaml ((content.drop 3).take i) = Except.error () →
                parse_frontmatter yaml content = ([], content.drop (i + 8)))
            ∧ (content.drop (i + 3)).take 5 = fmMarker
            ∧ (j < i → fmMarker.isPrefixOf ((content.drop 3).drop j) = false)) := by
  refine ⟨?_, ?_, ?_⟩
  · intro h
    rw [parse_frontmatter, if_pos h]
  · intro h
    rw [parse_frontmatter]
    by_cases hs : openMarker.isPrefixOf content = false
    · rw [if_pos hs]
    · rw [if_neg hs, h]
  · intro hs hf
    have hcase : parse_frontmatter yaml content
        = (fmOf yaml ((content.drop 3).take i), content.drop (i + 8)) := by
      rw [parse_frontmatter, if_neg (by simp [hs]), hf]
    refine ⟨hcase, ?_, ?_, ?_⟩
    · intro herr
      rw [hcase, fmOf, herr]
    · have hp := findSub_some_isPrefixOf fmMarker (content.drop 3) i hf
      have h1 : (content.drop 3).drop i = content.drop (i + 3) := by
        rw [List.drop_drop, Nat.add_comm]
      rw [h1, List.isPrefixOf_iff_prefix] at hp
      obtain ⟨t, ht⟩ := hp
      rw [← ht]
      exact List.take_left fmMarker t
    · intro hj
      exact findSub_some_min fmMarker (content.drop 3) i j hf hj

/-- Claim C5, witness: the contract applied to a text with no opening marker,
    a text with an unclosed block, a well-formed document under a failing yaml
    parse, and the same document under a successful yaml parse. -/
theorem claimC5_witness :
    parse_frontmatter yamlTitleA ['x'] = ([], ['x'])
      ∧ parse_frontmatter yamlTitleA textUnclosed = ([], textUnclosed)
      ∧ parse_frontmatter yamlFails textDoc = ([], textDoc.drop (2 + 8))
      ∧ parse_frontmatter yamlTitleA textDoc
          = (fmOf yamlTitleA ((textDoc.drop 3).take 2), textDoc.drop (2 + 8))
      ∧ (textDoc.drop (2 + 3)).take 5 = fmMarker
      ∧ fmMarker.isPrefixOf ((textDoc.drop 3).drop 1) = false := by
  have hx := claimC5_parse_frontmatter_contract yamlTitleA ['x'] 0 0
  have hu := claimC5_parse_frontmatter_contract yamlTitleA textUnclosed 0 0
  have hf := claimC5_parse_frontmatter_contract yamlFails textDoc 2 1
  have hd := claimC5_parse_frontmatter_contract yamlTitleA textDoc 2 1
  exact ⟨hx.1 (by decide), hu.2.1 (by decide),
    (hf.2.2 (by decide) (by decide)).2.1 rfl,
    (hd.2.2 (by decide) (by decide)).1,
    (hd.2.2 (by decide) (by decide)).2.2.1,
    (hd.2.2 (by decide) (by decide)).2.2.2 (by decide)⟩

/-- Upper bound of the chosen match line of extract_relevant_section. -/
theorem bestIdx_lt_length (content query : Str) (i : Nat) (h : bestIdx content query = some i) :
    i < (splitNL content).length := by
  rw [bestIdx] at h
  rcases hf : findIdxO (fun line => pyIn (lowerStr query) (lowerStr line)) (splitNL content)
    with _ | k
  · rw [hf] at h
    exact findTermIdx_lt_length _ _ _ h
  · rw [hf] at h
    cases h
    exact findIdxO_lt_length _ _ _ hf

/-- Claim C6: for every body and non-empty query, the snippet extractor agrees
    with the specification: the match line is the first line containing the
    full lowercased query, else the first query term (in query order) matching
    anywhere wins with its earliest line index, else the empty string; the
    returned window is lines max(0, i-5) through min(lastLineIndex, i+5)
    inclusive, joined with newlines. -/
theorem claimC6_extract_relevant_section_matches_spec (content query : Str)
    (h : query ≠ []) :
    extract_relevant_section content query 5 = extractSpecSection content query := by
  have hEq : (match (splitWS (lowerStr query)).find?
        (fun t => (splitNL content).any (fun line => pyIn t (lowerStr line))) with
      | some t => findIdxO (fun line => pyIn t (lowerStr line)) (splitNL content)
      | none => none) = findTermIdx (splitNL content) (splitWS (lowerStr query)) :=
    (findTermIdx_eq_find? _ _).symm
  rw [extract_relevant_section, extractSpecSection, hEq]
  rw [show (match findIdxO (fun line => pyIn (lowerStr query) (lowerStr line))
        (splitNL content) with
      | some i => some i
      | none => findTermIdx (splitNL content) (splitWS (lowerStr query)))
      = bestIdx content query from rfl]
  rcases hb : bestIdx content query with _ | i
  · rfl
  · have hlt : i < (splitNL content).length := bestIdx_lt_length content query i hb
    have harith : min (splitNL content).length (i + 5 + 1) - (i - 5)
        = min ((splitNL content).length - 1) (i + 5) + 1 - (i - 5) := by omega
    show joinNL (((splitNL content).drop (i - 5)).take
        (min (splitNL content).length (i + 5 + 1) - (i - 5)))
      = joinNL (((splitNL content).drop (i - 5)).take
        (min ((splitNL content).length - 1) (i + 5) + 1 - (i - 5)))
    rw [harith]

/-- Claim C6, witness: the extractor agrees with the specification at the body
    "a\nb" and the query "b". -/
theorem claimC6_witness :
    extract_relevant_section ['a', '\n', 'b'] ['b'] 5
      = extractSpecSection ['a', '\n', 'b'] ['b'] :=
  claimC6_extract_relevant_section_matches_spec ['a', '\n', 'b'] ['b'] (by decide)

theorem map_ext_mem (f g : α → β) (l : List α) (h : ∀ a ∈ l, f a = g a) :
    l.map f = l.map g := by
  induction l with
  | nil => rfl
  | cons x xs ih =>
    rw [List.map_cons, List.map_cons, h x (by simp), ih (fun a ha => h a (by simp [ha]))]

/-- Claim C7, counterexample: inserting one more occurrence of the matched
    term "ab" into the body "ab cd" (query "ab cd") yields "ab abcd"; the
    occurrence counts of both terms do not decrease, yet the score drops from
    9.0 to 1.5 because the exact-phrase bonus is destroyed. -/
theorem claimC7_counterexample :
    (['a', 'b', ' ', 'a', 'b', 'c', 'd'] : Str)
        = (['a', 'b', ' ', 'c', 'd'] : Str).take 3 ++ ['a', 'b']
            ++ (['a', 'b', ' ', 'c', 'd'] : Str).drop 3
      ∧ 1 ≤ countOcc ['a', 'b'] (lowerStr ['a', 'b', ' ', 'c', 'd'])
      ∧ countOcc ['a', 'b'] (lowerStr ['a', 'b', ' ', 'a', 'b', 'c', 'd'])
          = countOcc ['a', 'b'] (lowerStr ['a', 'b', ' ', 'c', 'd']) + 1
      ∧ countOcc ['c', 'd'] (lowerStr ['a', 'b', ' ', 'a', 'b', 'c', 'd'])
          = countOcc ['c', 'd'] (lowerStr ['a', 'b', ' ', 'c', 'd'])
      ∧ calculate_scoreA ['a', 'b', ' ', 'c', 'd'] ['a', 'b', ' ', 'a', 'b', 'c', 'd'] ['f']
          < calculate_scoreA ['a', 'b', ' ', 'c', 'd'] ['a', 'b', ' ', 'c', 'd'] ['f'] := by
  refine ⟨by decide, by decide, by decide, by decide, ?_⟩
  have h1 : calculate_scoreA ['a', 'b', ' ', 'c', 'd'] ['a', 'b', ' ', 'a', 'b', 'c', 'd'] ['f']
      = (0 : ℚ) + 0 + (0 + ((2 : Nat) : ℚ) * (1/2) + ((1 : Nat) : ℚ) * (1/2)) + 0 := rfl
  have h2 : calculate_scoreA ['a', 'b', ' ', 'c', 'd'] ['a', 'b', ' ', 'c', 'd'] ['f']
      = (0 : ℚ) + 8 + (0 + ((1 : Nat) : ℚ) * (1/2) + ((1 : Nat) : ℚ) * (1/2)) + 0 := rfl
  rw [h1, h2]
  norm_num

/-- Claim C7 as amended: the per-term frequency component of the variant A
    score (0.5 times the per-term occurrence count capped at 10, summed over
    the query terms) never decreases when no term's occurrence count
    decreases, and stays exactly unchanged when a term at or beyond the cap of
    10 gains further occurrences while the other terms' counts are unchanged;
    the total score is not monotone (see the counterexample). -/
theorem claimC7_amended_freq_component_monotone (terms : List Str) (cl cl' : Str) (t : Str) :
    ((∀ u ∈ terms, countOcc u cl ≤ countOcc u cl') →
        scoreFreqA terms cl ≤ scoreFreqA terms cl')
      ∧ (10 ≤ countOcc t cl → 10 ≤ countOcc t cl' →
          (∀ u ∈ terms, u ≠ t → countOcc u cl' = countOcc u cl) →
          scoreFreqA terms cl' = scoreFreqA terms cl) := by
  constructor
  · intro h
    rw [scoreFreqA, scoreFreqA, foldl_add_map, foldl_add_map]
    simp only [zero_add]
    apply List.sum_le_sum
    intro u hu
    have hc : min (countOcc u cl) 10 ≤ min (countOcc u cl') 10 :=
      min_le_min (h u hu) le_rfl
    have hq : ((min (countOcc u cl) 10 : Nat) : ℚ) ≤ ((min (countOcc u cl') 10 : Nat) : ℚ) :=
      Nat.cast_le.mpr hc
    linarith
  · intro h1 h2 h3
    rw [scoreFreqA, scoreFreqA, foldl_add_map, foldl_add_map]
    have hmap := map_ext_mem
      (fun u => ((min (countOcc u cl') 10 : Nat) : ℚ) * (1/2))
      (fun u => ((min (countOcc u cl) 10 : Nat) : ℚ) * (1/2)) terms ?_
    · rw [hmap]
    · intro u hu
      by_cases he : u = t
      · subst he
        dsimp only
        rw [min_eq_right h2, min_eq_right h1]
      · dsimp only
        rw [h3 u hu he]

/-- Claim C7 as amended, witness: one term "a", a body of ten copies of "a"
    and a body of twelve copies: the frequency component is monotone and, both
    counts being at or beyond the cap, unchanged. -/
theorem claimC7_amended_witness :
    scoreFreqA [['a']] ['a', 'a', 'a', 'a', 'a', 'a', 'a', 'a', 'a', 'a']
        ≤ scoreFreqA [['a']] ['a', 'a', 'a', 'a', 'a', 'a', 'a', 'a', 'a', 'a', 'a', 'a']
      ∧ scoreFreqA [['a']] ['a', 'a', 'a', 'a', 'a', 'a', 'a', 'a', 'a', 'a', 'a', 'a']
          = scoreFreqA [['a']] ['a', 'a', 'a', 'a', 'a', 'a', 'a', 'a', 'a', 'a'] :=
  ⟨(claimC7_amended_freq_component_monotone [['a']]
      ['a', 'a', 'a', 'a', 'a', 'a', 'a', 'a', 'a', 'a']
      ['a', 'a', 'a', 'a', 'a', 'a', 'a', 'a', 'a', 'a', 'a', 'a'] ['a']).1 (by decide),
   (claimC7_amended_freq_component_monotone [['a']]
      ['a', 'a', 'a', 'a', 'a', 'a', 'a', 'a', 'a', 'a']
      ['a', 'a', 'a', 'a', 'a', 'a', 'a', 'a', 'a', 'a', 'a', 'a'] ['a']).2
     (by decide) (by decide) (by decide)⟩

/-- Claim C8, counterexample: in the patterns variant a run with top 0 (which
    is less than 1) terminates with exit status 0 (success) and an empty,
    silently truncated result list, although a matching document exists (keepB
    holds of it); no invalid-configuration error is reported. -/
theorem claimC8_counterexample :
    (0 : Int) < 1
      ∧ mainB yamlTitleA ['a'] 0 true [some fileBdoc] = (0, [])
      ∧ keepB yamlTitleA ['a'] (some fileBdoc) = true := by
  refine ⟨by decide, rfl, ?_⟩
  have hscore : (0 : ℚ) < calculate_scoreB ['a'] [(kTitle, YVal.s ['a'])] ['a'] := by
    have h : calculate_scoreB ['a'] [(kTitle, YVal.s ['a'])] ['a'] = (10 : ℚ) + 0 + 0 + 3 := rfl
    rw [h]
    norm_num
  have hres : resultOfB yamlTitleA ['a'] fileBdoc
      = some { title := ['a'], file_path := ['p'], summary := strNoSummary,
               skill_level := strUnknown,
               score := calculate_scoreB ['a'] [(kTitle, YVal.s ['a'])] ['a'] } := by
    rw [show resultOfB yamlTitleA ['a'] fileBdoc
        = (if 0 < calculate_scoreB ['a'] [(kTitle, YVal.s ['a'])] ['a'] then
            some { title := ['a'], file_path := ['p'], summary := strNoSummary,
                   skill_level := strUnknown,
                   score := calculate_scoreB ['a'] [(kTitle, YVal.s ['a'])] ['a'] }
          else none) from rfl]
    rw [if_pos hscore]
  rw [show keepB yamlTitleA ['a'] (some fileBdoc)
      = (resultOfB yamlTitleA ['a'] fileBdoc).isSome from rfl]
  rw [hres]
  rfl

/-- Claim C8 as amended: in the references variant a top value below 1 makes
    search_references raise ValueError, which main reports, returning
    EXIT_FAILURE and no results; in the patterns variant the value is silently
    accepted and the run exits 0 (see the counterexample). -/
theorem claimC8_amended_references_reject_top_lt_one (query : Str) (top_n : Int)
    (dirExists : Bool) (files : List (Option FileA)) (h : top_n < 1) :
    search_referencesA query top_n dirExists files = Except.error SearchErr.valueError
      ∧ mainA query top_n dirExists files = (EXIT_FAILURE, []) := by
  have hs : search_referencesA query top_n dirExists files
      = Except.error SearchErr.valueError := by
    rw [search_referencesA, if_pos h]
  exact ⟨hs, by rw [mainA, hs]⟩

/-- Claim C8 as amended, witness: the references variant at top 0. -/
theorem claimC8_amended_witness :
    search_referencesA ['a'] 0 true [] = Except.error SearchErr.valueError
      ∧ mainA ['a'] 0 true [] = (EXIT_FAILURE, []) :=
  claimC8_amended_references_reject_top_lt_one ['a'] 0 true [] (by decide)

/-- Claim C9, counterexample: a document whose metadata block is malformed
    (here: absent, so parse_frontmatter falls back to the empty mapping) is
    dropped from the patterns search entirely, even though its body matches
    the query with a positive body-based score. -/
theorem claimC9_counterexample :
    search_patternsB yamlFails ['a'] 5 [some fileBplain] = []
      ∧ (parse_frontmatter yamlFails fileBplain.content).1 = []
      ∧ 0 < calculate_scoreB ['a'] [] ['a'] := by
  refine ⟨rfl, by decide, ?_⟩
  have h : calculate_scoreB ['a'] [] ['a'] = (0 : ℚ) + 0 + 0 + 3 := rfl
  rw [h]
  norm_num

/-- Claim C9 as amended: parse_frontmatter recovers from a malformed metadata
    block by returning the empty mapping without raising, but search_patterns
    then skips every document whose parsed metadata mapping is empty: removing
    such a document from the scanned files leaves the result unchanged, so the
    document is dropped rather than scored on its body. -/
theorem claimC9_amended_empty_frontmatter_dropped (yaml : YamlOracle) (query : Str)
    (top_n : Int) (pre post : List (Option FileB)) (f : FileB)
    (h : (parse_frontmatter yaml f.content).1 = []) :
    search_patternsB yaml query top_n (pre ++ some f :: post)
      = search_patternsB yaml query top_n (pre ++ post) := by
  have hg : resultOfB yaml query f = none := by
    rw [resultOfB, if_pos h]
  rw [search_patternsB, search_patternsB, accumulateB, accumulateB]
  simp only [List.filterMap_append, List.filterMap_cons, Option.some_bind, hg]

/-- Claim C9 as amended, witness: removing a front-matter-less document from
    the scanned files leaves the patterns search result unchanged. -/
theorem claimC9_amended_witness :
    search_patternsB yamlFails ['a'] 5 ([] ++ some fileBplain :: [])
      = search_patternsB yamlFails ['a'] 5 ([] ++ []) :=
  claimC9_amended_empty_frontmatter_dropped yamlFails ['a'] 5 [] [] fileBplain (by decide)

/-- Claim C10, counterexample: textC10 ("---\nx\n---\nbody\n---") starts with
    the opening marker and its final line is "---" with no trailing newline,
    yet the parser does not treat the block as unclosed: the interior
    "\n---\n" closes it and the returned pair is not the empty mapping with
    the original full text. -/
theorem claimC10_counterexample :
    openMarker.isPrefixOf textC10 = true
      ∧ (splitNL textC10).getLast? = some ['-', '-', '-']
      ∧ textC10.getLast? ≠ some '\n'
      ∧ parse_frontmatter yamlFails textC10 ≠ ([], textC10) := by
  refine ⟨by decide, by decide, by decide, by decide⟩

/-- Claim C10 as amended: the closing marker is recognised only as the exact
    five-character sequence "newline, three hyphens, newline" after the first
    three characters; consequently, for every input in which that sequence
    does not occur after the first three characters — in particular one whose
    only candidate closing marker is a final "---" not followed by a newline —
    parse_frontmatter returns the empty mapping and the original full text. -/
theorem claimC10_amended_unclosed_without_marker (yaml : YamlOracle) (content : Str)
    (h : ¬ fmMarker <:+: content.drop 3) :
    parse_frontmatter yaml content = ([], content) := by
  have hf := findSub_eq_none_of_not_infix fmMarker (content.drop 3) h
  rw [parse_frontmatter]
  by_cases hs : openMarker.isPrefixOf content = false
  · rw [if_pos hs]
  · rw [if_neg hs, hf]

/-- Claim C10 as amended, witness: the text "---\na\n---", whose final line is
    the three hyphens at end of file, parses to the empty mapping with the
    full text as body. -/
theorem claimC10_amended_witness :
    parse_frontmatter yamlTitleA textUnclosed = ([], textUnclosed) :=
  claimC10_amended_unclosed_without_marker yamlTitleA textUnclosed (by decide)
